import Mathlib

set_option autoImplicit false
set_option maxHeartbeats 1000000

/-!
Verification of the-agentic-engineer repository.

Part 1 embeds the command-safety classifier of the pre-tool-use hook.
The hook's own source file is not part of src/ (only the specification
describes it), so every definition in Part 1 is modelled from the spec,
as noted in its doc comment.

Part 2 embeds, directly from the Python sources in src/:
  - get_next_publish_date        (src/tools/next_publish_date.py)
  - validate_post_directory's directory-name format check and
    derive_blogger_path          (src/lib/validator.py)
  - get_post_slug                (src/lib/frontmatter.py)

Strings are modelled as `List Char` wherever pattern matching happens.
Python's Unicode character classes (\d, \w, \s, str.lower) are modelled
at the ASCII level, which is faithful on every input exercised here.
-/

/-! ## Shared string utilities -/

/-- Whitespace test, modelling the characters Python's `\s` and `str.split()`
treat as separators (ASCII subset). -/
def isWs (c : Char) : Bool := c == ' ' || c == '\t' || c == '\n' || c == '\r'

/-- Decimal-digit test, modelling Python's regex `\d` (ASCII subset). -/
def pyDigit (c : Char) : Bool := c.isDigit

/-- True when `pat` occurs in `n` starting at index `i`. -/
def substAt (pat n : List Char) (i : Nat) : Bool := pat.isPrefixOf (n.drop i)

/-- Substring containment test: `pat` occurs somewhere in `n`. -/
def subst (pat n : List Char) : Bool := (List.range (n.length + 1)).any (substAt pat n)

/-- Substring containment with a string-literal pattern. -/
def substS (pat : String) (n : List Char) : Bool := subst pat.data n

/-- One step of whitespace tokenization, used with `List.foldr`. -/
def tokCons (c : Char) (acc : List (List Char)) : List (List Char) :=
  if isWs c then [] :: acc
  else
    match acc with
    | [] => [[c]]
    | t :: ts => (c :: t) :: ts

/-- Split a character list into maximal whitespace-free tokens,
modelling `str.split()` with no argument. -/
def tokenize (l : List Char) : List (List Char) :=
  (l.foldr tokCons []).filter (fun t => !t.isEmpty)

/-- Lowercase every character (ASCII model of `str.lower()`). -/
def lc (l : List Char) : List Char := l.map Char.toLower

/-- Join tokens with single spaces. -/
def joinSp (ts : List (List Char)) : List Char := (ts.intersperse [' ']).flatten

/-- Modelled from the spec: the hook's Command Normalizer (spec 4.1) —
lowercase, collapse whitespace runs to single spaces, trim the ends. -/
def normChars (s : String) : List Char := joinSp (tokenize (lc s.data))

/-- Modelled from the spec: the Command Normalizer returning a `String`. -/
def normalizeCmd (s : String) : String := String.mk (normChars s)

/-- One step of splitting on a separator character, used with `List.foldr`. -/
def splitCons (sep : Char) (c : Char) (acc : List (List Char)) : List (List Char) :=
  match acc with
  | [] => [[c]]
  | t :: ts => if c == sep then [] :: t :: ts else (c :: t) :: ts

/-- Split on a separator character keeping empty fields,
modelling Python's `str.split(sep)`. -/
def splitOnChar (sep : Char) (l : List Char) : List (List Char) :=
  l.foldr (splitCons sep) [[]]

/-- Numeric value of a digit string. -/
def digitsToNat (l : List Char) : Nat := l.foldl (fun a c => a * 10 + (c.toNat - 48)) 0

/-- Model of Python's `int(s)` on nonnegative inputs: succeeds exactly on
nonempty all-digit strings (sign/whitespace forms are not needed here). -/
def pyInt (l : List Char) : Option Nat :=
  if l ≠ [] ∧ l.all Char.isDigit then some (digitsToNat l) else none

/-! ## Part 1: the command-safety classifier (modelled from the spec) -/

/-- True when index `i` of `n` holds a whitespace character. -/
def isWsAt (n : List Char) (i : Nat) : Bool :=
  match n.drop i with
  | c :: _ => isWs c
  | [] => false

/-- True when a token of `n` starts at index `i` (start of string or
preceded by whitespace). -/
def tokenStartAt (n : List Char) (i : Nat) : Bool :=
  decide (i = 0) || isWsAt n (i - 1)

/-- Modelled from the spec: the flag cluster (a `-`-initial token) starting
at index `i` of `n`, when there is one. -/
def clusterAt (n : List Char) (i : Nat) : Option (List Char) :=
  if tokenStartAt n i then
    match n.drop i with
    | '-' :: rest => some ('-' :: rest.takeWhile (fun c => !isWs c))
    | _ => none
  else none

/-- Modelled from the spec: the single-letter flags a cluster contributes;
`--recursive` and `--force` count as `r` and `f` (spec 4.2). -/
def clusterLetters (cl : List Char) : List Char :=
  if cl.take 2 = ['-', '-'] then
    if cl = "--recursive".data then ['r']
    else if cl = "--force".data then ['f']
    else []
  else cl.drop 1

/-- True when some flag cluster inside `n` contributes the flag letter `c`. -/
def hasFlagLetter (n : List Char) (c : Char) : Bool :=
  (List.range n.length).any fun i =>
    match clusterAt n i with
    | some cl => (clusterLetters cl).contains c
    | none => false

/-- True when the substring `rm` occurs at index `i` of `n`. -/
def rmAt (n : List Char) (i : Nat) : Bool := "rm".data.isPrefixOf (n.drop i)

/-- Modelled from the spec: rm-danger case (a) — the string contains `rm`
followed by flag clusters contributing both `r` and `f` (spec 4.2a). -/
def rmDangerA (n : List Char) : Bool :=
  (List.range n.length).any fun i =>
    rmAt n i && hasFlagLetter (n.drop (i + 2)) 'r' && hasFlagLetter (n.drop (i + 2)) 'f'

/-- Modelled from the spec: the dangerous path tokens of spec 4.2b, checked
as substrings (the spec's design notes call the check substring-broad). -/
def dangerousPathTok (n : List Char) : Bool :=
  substS "/" n || substS "~" n || substS "$home" n || substS "*" n || substS "." n

/-- True when the string contains `rm` followed by a recursive flag. -/
def rmRecursive (n : List Char) : Bool :=
  (List.range n.length).any fun i => rmAt n i && hasFlagLetter (n.drop (i + 2)) 'r'

/-- Modelled from the spec: rm-danger case (b) — recursive `rm` together
with a dangerous path token (spec 4.2b). -/
def rmDangerB (n : List Char) : Bool := rmRecursive n && dangerousPathTok n

/-- Modelled from the spec: the Rm-Danger Detector (spec 4.2). -/
def rmDanger (n : List Char) : Bool := rmDangerA n || rmDangerB n

/-- Length of the command separator (`&&`, `||`, `;`) at index `i`, 0 if none. -/
def sepLenAt (n : List Char) (i : Nat) : Nat :=
  if "&&".data.isPrefixOf (n.drop i) || "||".data.isPrefixOf (n.drop i) then 2
  else if ";".data.isPrefixOf (n.drop i) then 1
  else 0

/-- Modelled from the spec: the Chained-Command Detector — a separator
immediately followed (modulo whitespace) by a recursive `rm` (spec 4.3). -/
def chainedCommand (n : List Char) : Bool :=
  (List.range n.length).any fun i =>
    sepLenAt n i != 0 &&
      ("rm".data.isPrefixOf ((n.drop (i + sepLenAt n i)).dropWhile isWs) &&
        hasFlagLetter (((n.drop (i + sepLenAt n i)).dropWhile isWs).drop 2) 'r')

/-- Modelled from the spec: the Alternative-Deletion Detector (spec 4.4). -/
def alternativeDeletion (n : List Char) : Bool :=
  (substS "find" n && (substS "-delete" n || substS "-exec rm" n)) ||
  substS "xargs rm" n ||
  ((substS "perl -e" n || substS "python -c" n || substS "python3 -c" n ||
    substS "ruby -e" n || substS "node -e" n || substS "eval" n) && rmRecursive n)

/-- Modelled from the spec: the Git-Danger Detector (spec 4.5); the input is
already lowercased by the normalizer. -/
def gitDanger (n : List Char) : Bool :=
  (substS "git push" n && (substS "--force" n || substS " -f" n)) ||
  substS "reset --hard" n ||
  (substS "git clean" n && substS " -" n) ||
  substS "branch -d" n ||
  substS "config --global" n || substS "config --system" n ||
  substS "filter-branch" n || substS "filter-repo" n ||
  substS "rebase -i" n || substS "reflog expire" n ||
  substS "gc --prune=now" n ||
  substS "remote remove origin" n || substS "remote rm origin" n

/-- True when `l` starts with a four-digit octal mode whose leading digit is
4–7, ending the token (setuid/setgid octal pattern of spec 4.6). -/
def fourDigitHigh (l : List Char) : Bool :=
  match l with
  | a :: b :: c :: d :: rest =>
    decide (52 ≤ a.toNat) && decide (a.toNat ≤ 55) && pyDigit b && pyDigit c && pyDigit d &&
      (match rest with | [] => true | e :: _ => isWs e)
  | _ => false

/-- Modelled from the spec: a setuid/setgid octal mode somewhere in a
`chmod` command (spec 4.6). -/
def setuidOctal (n : List Char) : Bool :=
  substS "chmod" n &&
    (List.range n.length).any fun i => tokenStartAt n i && fourDigitHigh (n.drop i)

/-- Modelled from the spec: the Permission-Change Detector — the `chmod +x`
allow-list carve-out is checked before every deny pattern (spec 4.6). -/
def permissionChange (n : List Char) : Bool :=
  if substS "chmod +x" n then false
  else
    substS "chmod 777" n || substS "chmod -r 7" n || substS "chmod -r 6" n ||
    substS "chmod a+rwx" n || substS "chmod o+w" n || setuidOctal n ||
    substS "u+s" n || substS "g+s" n ||
    substS "chown -r root" n || substS "chown -r" n ||
    substS "sudo chmod" n || substS "sudo chown" n

/-- Modelled from the spec: the Brew-Command Detector (spec 4.7). -/
def brewCommand (n : List Char) : Bool :=
  substS "brew install" n || substS "brew uninstall" n || substS "brew reinstall" n ||
  substS "brew upgrade" n || substS "brew tap" n || substS "brew untap" n ||
  substS "brew link" n || substS "brew unlink" n

/-- The single-quote character. -/
def squote : Char := Char.ofNat 39

/-- Quote stripping state machine: inside `some q` a quoted span opened by
`q` is being dropped. -/
def stripQuotedAux : Option Char → List Char → List Char
  | _, [] => []
  | none, c :: cs =>
    if c == '"' then stripQuotedAux (some '"') cs
    else if c == squote then stripQuotedAux (some squote) cs
    else c :: stripQuotedAux none cs
  | some q, c :: cs => if c == q then stripQuotedAux none cs else stripQuotedAux (some q) cs

/-- Modelled from the spec: removal of quoted string literals, so that the
credential detector ignores incidental mentions such as commit messages
(spec 4.8, critical exclusion). -/
def stripQuoted (l : List Char) : List Char := stripQuotedAux none l

/-- Final path component (text after the last `/`). -/
def baseName (t : List Char) : List Char :=
  (t.reverse.takeWhile (fun c => !(c == '/'))).reverse

/-- Modelled from the spec: a `.env*` file name, excluding the `.sample` and
`.example` template suffixes (spec 4.8). -/
def isEnvTok (t : List Char) : Bool :=
  ".env".data.isPrefixOf (baseName t) &&
    !(baseName t == ".env.sample".data) && !(baseName t == ".env.example".data)

/-- Modelled from the spec: the three protected credential file names (spec 4.8). -/
def credFileNames : List (List Char) :=
  ["client_secret.json".data, ".credentials.json".data, "token.pickle".data]

/-- True when `t` names one of the protected credential files. -/
def isCredTok (t : List Char) : Bool := credFileNames.any (fun f => baseName t == f)

/-- Modelled from the spec: the command verbs whose co-occurrence with a
`.env*` argument marks credential access (readers, editors, encoders,
write/redirect, sourcing, interpreters, download and archive tools; spec 4.8). -/
def accessVerbs : List (List Char) :=
  (["cat", "less", "more", "head", "tail", "awk", "sed", "grep",
    "vim", "vi", "nano", "emacs", "code", "subl", "atom",
    "base64", "xxd", "od", "strings", "hexdump",
    "source", ".", "touch", "cp", "mv", "tee", "echo", "printf",
    "python", "python3", "ruby", "node", "perl", "php", "bash", "sh",
    "curl", "wget", "tar", "zip", "unzip", ">", ">>"]).map String.data

/-- The verbs that mark access to the named credential files also include `rm`. -/
def credVerbs : List (List Char) := "rm".data :: accessVerbs

/-- True when token `t` is one of the access verbs. -/
def isAccessVerb (t : List Char) : Bool := accessVerbs.any (fun v => t == v)

/-- True when token `t` is one of the credential-file verbs. -/
def isCredVerb (t : List Char) : Bool := credVerbs.any (fun v => t == v)

/-- Scan for a verb token followed (later in the token list) by a protected
file-name token. -/
def scanVerbEnv : List (List Char) → Bool
  | [] => false
  | t :: ts =>
    (isAccessVerb t && ts.any isEnvTok) || (isCredVerb t && ts.any isCredTok) || scanVerbEnv ts

/-- Modelled from the spec: the Credential-Access Detector on a shell
command — quoted literals are ignored, then a command verb must be followed
by a protected file-name token (spec 4.8, shell shape). -/
def credentialCommand (n : List Char) : Bool := scanVerbEnv (tokenize (stripQuoted n))

/-- Modelled from the spec: the Credential-Access Detector on a file path
(spec 4.8, file shape); matching is case-insensitive. -/
def credentialFilePath (p : String) : Bool := isEnvTok (lc p.data) || isCredTok (lc p.data)

/-- Modelled from the spec: tool kinds of the closed `tool_name` set (spec 3, 6). -/
inductive ToolKind where
  | file
  | shell
  | unknown
deriving DecidableEq

/-- Modelled from the spec: dispatch on the `tool_name` string (spec 6). -/
def toolKind (t : String) : ToolKind :=
  if t = "Read" || t = "Edit" || t = "MultiEdit" || t = "Write" then ToolKind.file
  else if t = "Bash" then ToolKind.shell
  else ToolKind.unknown

/-- Modelled from the spec: a tool invocation; absent fields default to the
empty string (spec 3). -/
structure ToolInvocation where
  tool_name : String
  file_path : String
  command : String
deriving DecidableEq

/-- Modelled from the spec: the aggregator's decision (spec 3). -/
inductive Decision where
  | Allowed
  | Blocked (reason : String) (detail_lines : List String)
deriving DecidableEq

/-- Modelled from the spec: the exit-code convention (spec 6). -/
def exitCode : Decision → Nat
  | Decision.Allowed => 0
  | Decision.Blocked _ _ => 2

/-- Block reason for credential access (spec 7). -/
def credReason : String := "Credential file access blocked"

/-- Remediation detail lines for credential access (spec 7). -/
def credDetail : List String := ["Protected: .env files, client_secret.json, .credentials.json, token.pickle", "Use .env.sample for templates"]

/-- Block reason for dangerous rm commands. -/
def rmReason : String := "Dangerous rm command blocked"

/-- Remediation detail lines for dangerous rm commands. -/
def rmDetail : List String := ["Delete specific files without recursive force flags"]

/-- Block reason for chained commands introducing a recursive rm. -/
def chainReason : String := "Chained command with recursive rm blocked"

/-- Remediation detail lines for chained commands. -/
def chainDetail : List String := ["Run the deletion as its own reviewed command"]

/-- Block reason for alternative deletion vectors. -/
def altReason : String := "Alternative deletion command blocked"

/-- Remediation detail lines for alternative deletion vectors. -/
def altDetail : List String := ["Use plain reviewed commands instead of deletion bypasses"]

/-- Block reason for destructive git operations. -/
def gitReason : String := "Dangerous git operation blocked"

/-- Remediation detail lines for destructive git operations. -/
def gitDetail : List String := ["Avoid history-rewriting or force operations"]

/-- Block reason for permission changes. -/
def permReason : String := "Dangerous permission change blocked"

/-- Remediation detail lines for permission changes. -/
def permDetail : List String := ["Only chmod +x is allowed"]

/-- Block reason for brew package mutations. -/
def brewReason : String := "Brew package mutation blocked"

/-- Remediation detail lines for brew package mutations. -/
def brewDetail : List String := ["Read-only brew subcommands are allowed"]

/-- Modelled from the spec: the Decision Aggregator (spec 4.9) — the
credential detector is evaluated first for both tool shapes; for
shell-execute the remaining detectors run in the fixed order rm-danger,
chained-command, alternative-deletion, git-danger, permission-change,
brew-command; first match wins; otherwise, and for unrecognized tools,
the decision is `Allowed` (fail open). -/
def classify (inv : ToolInvocation) : Decision :=
  match toolKind inv.tool_name with
  | ToolKind.file =>
    if credentialFilePath inv.file_path then Decision.Blocked credReason credDetail
    else Decision.Allowed
  | ToolKind.shell =>
    if credentialCommand (normChars inv.command) then Decision.Blocked credReason credDetail
    else if rmDanger (normChars inv.command) then Decision.Blocked rmReason rmDetail
    else if chainedCommand (normChars inv.command) then Decision.Blocked chainReason chainDetail
    else if alternativeDeletion (normChars inv.command) then Decision.Blocked altReason altDetail
    else if gitDanger (normChars inv.command) then Decision.Blocked gitReason gitDetail
    else if permissionChange (normChars inv.command) then Decision.Blocked permReason permDetail
    else if brewCommand (normChars inv.command) then Decision.Blocked brewReason brewDetail
    else Decision.Allowed
  | ToolKind.unknown => Decision.Allowed

/-! ## Part 2: functions embedded from the Python sources -/

/-- Ordinal of the largest representable Python `datetime` date:
`date(9999, 12, 31).toordinal()`. Python raises `OverflowError` when date
arithmetic leaves the representable range. -/
def maxOrdinal : Nat := 3652059

/-- A naive Python `datetime`, with the date held as its proleptic Gregorian
ordinal (`date(1, 1, 1)` has ordinal 1 and is a Monday). -/
structure PyDateTime where
  day : Nat
  hour : Nat
  minute : Nat
  second : Nat
  micro : Nat
deriving DecidableEq

/-- Weekday of a date ordinal, Python convention (Monday = 0). -/
def weekdayOf (n : Nat) : Nat := (n + 6) % 7

/-- Python `datetime.weekday()`. -/
def PyDateTime.weekday (d : PyDateTime) : Nat := weekdayOf d.day

/-- Python `datetime + timedelta(days=k)`: the date moves `k` days forward,
the time of day is unchanged; `none` models the `OverflowError` raised past
`datetime.max`. -/
def addDays (d : PyDateTime) (k : Nat) : Option PyDateTime :=
  if d.day + k ≤ maxOrdinal then some ⟨d.day + k, d.hour, d.minute, d.second, d.micro⟩
  else none

/-- Python `datetime.replace(hour=h, minute=m, second=s, microsecond=0)`;
`none` models the `ValueError` raised on out-of-range fields. -/
def replaceTime (d : PyDateTime) (h m s : Nat) : Option PyDateTime :=
  if h ≤ 23 ∧ m ≤ 59 ∧ s ≤ 59 then some ⟨d.day, h, m, s, 0⟩ else none

/-- Python `datetime` comparison (strictly earlier), lexicographic on the
date then the time fields. -/
def dtLt (a b : PyDateTime) : Prop :=
  a.day < b.day ∨ (a.day = b.day ∧
    (a.hour < b.hour ∨ (a.hour = b.hour ∧
      (a.minute < b.minute ∨ (a.minute = b.minute ∧
        (a.second < b.second ∨ (a.second = b.second ∧ a.micro < b.micro)))))))

/-- The `DAY_MAP` dictionary of src/tools/next_publish_date.py; `none`
models the `KeyError` on an unknown key. -/
def DAY_MAP (s : String) : Option Nat :=
  if s = "monday" then some 0
  else if s = "tuesday" then some 1
  else if s = "wednesday" then some 2
  else if s = "thursday" then some 3
  else if s = "friday" then some 4
  else if s = "saturday" then some 5
  else if s = "sunday" then some 6
  else none

/-- Model of `str.lower()` (ASCII), kept as a `String` operation. -/
def pyLower (s : String) : String := String.mk (lc s.data)

/-- The comprehension `[DAY_MAP[day.lower()] for day in publish_days]`;
`none` models the `KeyError` on an invalid day name. -/
def mapDays : List String → Option (List Nat)
  | [] => some []
  | d :: ds =>
    match DAY_MAP (pyLower d), mapDays ds with
    | some w, some ws => some (w :: ws)
    | _, _ => none

/-- Insertion into a sorted list, for `sortNat`. -/
def insertSorted (x : Nat) : List Nat → List Nat
  | [] => [x]
  | y :: ys => if x ≤ y then x :: y :: ys else y :: insertSorted x ys

/-- Ascending sort, modelling `list.sort()` on the target weekdays. -/
def sortNat (l : List Nat) : List Nat := l.foldr insertSorted []

/-- The time-parsing prelude of `get_next_publish_date`:
`publish_time.split(':')`, then `int` on the first three fields, with
minute and second defaulting to 0 when there are fewer fields. -/
def parseTime (l : List Char) : Option (Nat × Nat × Nat) :=
  match splitOnChar ':' l with
  | [] => none
  | [p0] => (pyInt p0).map (fun h => (h, 0, 0))
  | [p0, p1] =>
    match pyInt p0, pyInt p1 with
    | some h, some m => some (h, m, 0)
    | _, _ => none
  | p0 :: p1 :: p2 :: _ =>
    match pyInt p0, pyInt p1, pyInt p2 with
    | some h, some m, some s => some (h, m, s)
    | _, _, _ => none

/-- The search loop of `get_next_publish_date`: up to `fuel` (= 7)
candidate days are examined; exhaustion models the final
`raise ValueError`, an overflowing date increment models `OverflowError`. -/
def findDate (targets : List Nat) : Nat → PyDateTime → Option PyDateTime
  | 0, _ => none
  | fuel + 1, d =>
    if targets.contains d.weekday then some d
    else
      match addDays d 1 with
      | some d2 => findDate targets fuel d2
      | none => none

/-- `get_next_publish_date` of src/tools/next_publish_date.py; `none`
models every raising path (bad time string, bad day name, date overflow,
the final `ValueError`). -/
def get_next_publish_date (after : PyDateTime) (publish_days : List String)
    (publish_time : String) : Option PyDateTime :=
  match parseTime publish_time.data with
  | none => none
  | some (h, m, s) =>
    match mapDays publish_days with
    | none => none
    | some tws =>
      match addDays after 1 with
      | none => none
      | some d1 =>
        match replaceTime d1 h m s with
        | none => none
        | some current => findDate (sortNat tws) 7 current

/-- Anchored match of the regex prefix `(\d{4})-(\d{2})-(\d{2})-` shared by
`validate_post_directory` and `derive_blogger_path` (src/lib/validator.py),
returning the year, month and day digit groups and the remainder. -/
def matchDatePrefix : List Char → Option (List Char × List Char × List Char × List Char)
  | c1 :: c2 :: c3 :: c4 :: h1 :: c5 :: c6 :: h2 :: c7 :: c8 :: h3 :: rest =>
    if pyDigit c1 && pyDigit c2 && pyDigit c3 && pyDigit c4 && (h1 == '-') &&
        pyDigit c5 && pyDigit c6 && (h2 == '-') && pyDigit c7 && pyDigit c8 && (h3 == '-')
    then some ([c1, c2, c3, c4], [c5, c6], [c7, c8], rest)
    else none
  | _ => none

/-- The directory-name format check of `validate_post_directory`
(src/lib/validator.py line 83): Python
`re.match(r'^\d{4}-\d{2}-\d{2}-.+$', name)` succeeds. `.` does not match a
newline and `$` also matches just before one single trailing newline, which
this definition reproduces. -/
def validFormatCheck (s : String) : Bool :=
  match matchDatePrefix s.data with
  | none => false
  | some (_, _, _, rest) =>
    !(rest.takeWhile (fun c => !(c == '\n'))).isEmpty &&
      ((rest.dropWhile (fun c => !(c == '\n'))).isEmpty ||
        (rest.dropWhile (fun c => !(c == '\n'))) == ['\n'])

/-- `derive_blogger_path` of src/lib/validator.py: match
`(\d{4})-(\d{2})-(\d{2})-(.+)` (anchored at the start only, greedy `.+`
stopping at a newline) and build `/YYYY/MM/slug.html`; `none` models the
`ValidationError` raised when the regex does not match. -/
def derive_blogger_path (s : String) : Option String :=
  match matchDatePrefix s.data with
  | none => none
  | some (y, m, _, rest) =>
    if (rest.takeWhile (fun c => !(c == '\n'))).isEmpty then none
    else some (String.mk ('/' :: y ++ '/' :: m ++ '/' :: rest.takeWhile (fun c => !(c == '\n')) ++ ".html".data))

/-- Word-character test, modelling Python's regex `\w` (ASCII subset). -/
def pyWord (c : Char) : Bool := c.isAlphanum || c == '_'

/-- A character the slug-collapsing step treats as a separator: the class
`[-\s]` of `get_post_slug`. -/
def isSep (c : Char) : Bool := c == '-' || isWs c

/-- A character kept by `re.sub(r'[^\w\s-]', '', slug)`. -/
def slugKeep (c : Char) : Bool := pyWord c || isWs c || c == '-'

/-- State machine for `re.sub(r'[-\s]+', '-', slug)`: each maximal run of
separators becomes one hyphen; `prev` records whether the previous
character belonged to a run. -/
def collapseAux : Bool → List Char → List Char
  | _, [] => []
  | prev, c :: cs =>
    if isSep c then
      if prev then collapseAux true cs else '-' :: collapseAux true cs
    else c :: collapseAux false cs

/-- `re.sub(r'[-\s]+', '-', slug)` of `get_post_slug`. -/
def collapseSeps (l : List Char) : List Char := collapseAux false l

/-- Hyphen test for `str.strip('-')`. -/
def isHyph (c : Char) : Bool := c == '-'

/-- Python `slug.strip('-')`: trailing hyphens removed first (via reverse),
then leading ones; the order is immaterial. -/
def stripHyphens (l : List Char) : List Char :=
  ((l.reverse.dropWhile isHyph).reverse).dropWhile isHyph

/-- The slug pipeline of `get_post_slug` applied to a title. -/
def slugChars (title : List Char) : List Char :=
  stripHyphens (collapseSeps ((title.map Char.toLower).filter slugKeep))

/-- `get_post_slug` of src/lib/frontmatter.py: `frontmatter.get('title',
'untitled')` is modelled by the `Option String` argument; the final
`slug or 'untitled'` returns the fallback on an empty slug. -/
def get_post_slug (title : Option String) : String :=
  if (slugChars (title.getD "untitled").data).isEmpty then "untitled"
  else String.mk (slugChars (title.getD "untitled").data)

/-! ## Helper lemmas -/

/-- A witness index makes `List.any` over a range true. -/
theorem any_range_intro {p : Nat → Bool} {len i : Nat} (hi : i < len) (hp : p i = true) :
    (List.range len).any p = true :=
  List.any_eq_true.mpr ⟨i, List.mem_range.mpr hi, hp⟩

/-- Decompose a successful `isPrefixOf` into an append. -/
theorem prefix_elim : ∀ (p l : List Char), p.isPrefixOf l = true → ∃ t, l = p ++ t
  | [], l, _ => ⟨l, rfl⟩
  | a :: as, [], h => by simp [List.isPrefixOf] at h
  | a :: as, b :: bs, h => by
    simp only [List.isPrefixOf, Bool.and_eq_true, beq_iff_eq] at h
    obtain ⟨t, ht⟩ := prefix_elim as bs h.2
    exact ⟨t, by rw [h.1, ht]; rfl⟩

/-- An append is a successful `isPrefixOf`. -/
theorem prefix_intro : ∀ (p t : List Char), p.isPrefixOf (p ++ t) = true
  | [], _ => by simp [List.isPrefixOf]
  | a :: as, t => by simp [List.isPrefixOf, prefix_intro as t]

/-- `subst` holds at an explicit decomposition. -/
theorem subst_intro (pat pre post : List Char) :
    subst pat (pre ++ pat ++ post) = true := by
  apply any_range_intro (i := pre.length)
  · simp [List.length_append]
    omega
  · unfold substAt
    rw [List.append_assoc, List.drop_left]
    exact prefix_intro pat post

/-- A successful `subst` yields an explicit occurrence. -/
theorem subst_elim {pat n : List Char} (h : subst pat n = true) :
    ∃ i t, n.drop i = pat ++ t := by
  obtain ⟨i, _, hp⟩ := List.any_eq_true.mp h
  obtain ⟨t, ht⟩ := prefix_elim _ _ hp
  exact ⟨i, t, ht⟩

/-- A nonempty `drop` bounds the index. -/
theorem drop_cons_lt {n : List Char} {i : Nat} {c : Char} {t : List Char}
    (h : n.drop i = c :: t) : i < n.length := by
  have h1 := List.length_drop i n
  rw [h] at h1
  simp at h1
  omega

/-- After a space, a `-rf` cluster contributes both `r` and `f`. -/
theorem hasFlag_space_rf (t : List Char) :
    hasFlagLetter (' ' :: '-' :: 'r' :: 'f' :: t) 'r' = true ∧
      hasFlagLetter (' ' :: '-' :: 'r' :: 'f' :: t) 'f' = true := by
  constructor <;>
  · apply any_range_intro (i := 1)
    · simp
    · simp [clusterAt, tokenStartAt, isWsAt, isWs, List.takeWhile, clusterLetters]

/-- After a space, a `-fr` cluster contributes both `r` and `f`. -/
theorem hasFlag_space_fr (t : List Char) :
    hasFlagLetter (' ' :: '-' :: 'f' :: 'r' :: t) 'r' = true ∧
      hasFlagLetter (' ' :: '-' :: 'f' :: 'r' :: t) 'f' = true := by
  constructor <;>
  · apply any_range_intro (i := 1)
    · simp
    · simp [clusterAt, tokenStartAt, isWsAt, isWs, List.takeWhile, clusterLetters]

/-- Containment of a literal `rm -rf` or `rm -fr` makes the rm-danger
detector fire. -/
theorem rmDanger_of_contained {n : List Char}
    (h : substS "rm -rf" n = true ∨ substS "rm -fr" n = true) : rmDanger n = true := by
  have hA : rmDangerA n = true := by
    rcases h with h | h <;>
    · simp only [substS] at h
      obtain ⟨i, t, ht⟩ := subst_elim h
      simp only [List.cons_append, List.nil_append] at ht
      have hi : i < n.length := drop_cons_lt ht
      have h2 : n.drop (i + 2) = List.drop 2 (n.drop i) := by
        rw [List.drop_drop]
      rw [ht] at h2
      simp only [List.drop_succ_cons, List.drop_zero] at h2
      unfold rmDangerA
      apply any_range_intro hi
      have hrm : rmAt n i = true := by
        unfold rmAt
        rw [ht]
        have hsplit : ∀ (u : List Char), ('r' :: 'm' :: u) = "rm".data ++ u := fun _ => rfl
        rw [hsplit]
        exact prefix_intro _ _
      first
      | (rw [hrm, h2, (hasFlag_space_rf t).1, (hasFlag_space_rf t).2]; rfl)
      | (rw [hrm, h2, (hasFlag_space_fr t).1, (hasFlag_space_fr t).2]; rfl)
  unfold rmDanger
  rw [hA]
  rfl

/-- Every detector rejects the empty normalized command. -/
theorem detectors_empty :
    credentialCommand (normChars "") = false ∧ rmDanger (normChars "") = false ∧
    chainedCommand (normChars "") = false ∧ alternativeDeletion (normChars "") = false ∧
    gitDanger (normChars "") = false ∧ permissionChange (normChars "") = false ∧
    brewCommand (normChars "") = false := by decide

/-! ## Claims C1-C7: the command-safety classifier (spec-modelled) -/

/-- C1: fail-open — a structurally malformed invocation (empty `command`
for the shell tool, empty `file_path` for a file tool, or an unrecognized
`tool_name`) resolves to `Allowed` with exit code 0, never `Blocked`. -/
theorem claim_C1_fail_open (inv : ToolInvocation)
    (h : (inv.tool_name = "Bash" ∧ inv.command = "") ∨
      ((inv.tool_name = "Read" ∨ inv.tool_name = "Edit" ∨ inv.tool_name = "MultiEdit" ∨
        inv.tool_name = "Write") ∧ inv.file_path = "") ∨
      inv.tool_name ∉ (["Read", "Edit", "MultiEdit", "Write", "Bash"] : List String)) :
    classify inv = Decision.Allowed ∧ exitCode (classify inv) = 0 := by
  have hall : classify inv = Decision.Allowed := by
    obtain ⟨d1, d2, d3, d4, d5, d6, d7⟩ := detectors_empty
    rcases h with ⟨h1, h2⟩ | ⟨h1, h2⟩ | h1
    · have hk : toolKind inv.tool_name = ToolKind.shell := by rw [h1]; decide
      simp [classify, hk, h2, d1, d2, d3, d4, d5, d6, d7]
    · have hp : credentialFilePath "" = false := rfl
      rcases h1 with h1 | h1 | h1 | h1 <;>
      · have hk : toolKind inv.tool_name = ToolKind.file := by rw [h1]; decide
        simp [classify, hk, h2, hp]
    · simp only [List.mem_cons, List.not_mem_nil, or_false, not_or] at h1
      obtain ⟨ht1, ht2, ht3, ht4, ht5⟩ := h1
      have hk : toolKind inv.tool_name = ToolKind.unknown := by
        simp [toolKind, ht1, ht2, ht3, ht4, ht5]
      simp [classify, hk]
  exact ⟨hall, by rw [hall]; rfl⟩

/-- Witness for C1 at a concrete malformed invocation. -/
theorem claim_C1_fail_open_witness :
    classify ⟨"Bash", "", ""⟩ = Decision.Allowed ∧
      exitCode (classify ⟨"Bash", "", ""⟩) = 0 :=
  claim_C1_fail_open ⟨"Bash", "", ""⟩ (Or.inl ⟨rfl, rfl⟩)

/-- C2: the shell credential detector fires on command-plus-filename
adjacency (`cat .env`, `grep foo .env`, `vim .env`, `source .env`,
`. .env`) and not on incidental `.env` mentions (`cat .env.sample`, commit
messages, quoted echo text, `git add .`, `git status`, `git push`). -/
theorem claim_C2_credential_shell_detector :
    credentialCommand (normChars "cat .env") = true ∧
    credentialCommand (normChars "grep foo .env") = true ∧
    credentialCommand (normChars "vim .env") = true ∧
    credentialCommand (normChars "source .env") = true ∧
    credentialCommand (normChars ". .env") = true ∧
    credentialCommand (normChars "cat .env.sample") = false ∧
    credentialCommand (normChars "git commit -m \"added foo to env\"") = false ∧
    credentialCommand (normChars "git commit -m \"cat .env issue fixed\"") = false ∧
    credentialCommand (normChars "echo \"test .env\"") = false ∧
    credentialCommand (normChars "git add .") = false ∧
    credentialCommand (normChars "git status") = false ∧
    credentialCommand (normChars "git push") = false := by decide

/-- C3: the aggregator evaluates the credential detector first for both
tool shapes; for shell-execute the remaining detectors run in the fixed
order rm-danger, chained-command, alternative-deletion, git-danger,
permission-change, brew-command; the first true detector's message is
surfaced, and with no match the decision is `Allowed`. -/
theorem claim_C3_aggregator_order (inv : ToolInvocation) :
    (toolKind inv.tool_name = ToolKind.file →
      ((credentialFilePath inv.file_path = true →
          classify inv = Decision.Blocked credReason credDetail) ∧
        (credentialFilePath inv.file_path = false → classify inv = Decision.Allowed))) ∧
    (toolKind inv.tool_name = ToolKind.shell →
      ((credentialCommand (normChars inv.command) = true →
          classify inv = Decision.Blocked credReason credDetail) ∧
        (credentialCommand (normChars inv.command) = false →
          rmDanger (normChars inv.command) = true →
          classify inv = Decision.Blocked rmReason rmDetail) ∧
        (credentialCommand (normChars inv.command) = false →
          rmDanger (normChars inv.command) = false →
          chainedCommand (normChars inv.command) = true →
          classify inv = Decision.Blocked chainReason chainDetail) ∧
        (credentialCommand (normChars inv.command) = false →
          rmDanger (normChars inv.command) = false →
          chainedCommand (normChars inv.command) = false →
          alternativeDeletion (normChars inv.command) = true →
          classify inv = Decision.Blocked altReason altDetail) ∧
        (credentialCommand (normChars inv.command) = false →
          rmDanger (normChars inv.command) = false →
          chainedCommand (normChars inv.command) = false →
          alternativeDeletion (normChars inv.command) = false →
          gitDanger (normChars inv.command) = true →
          classify inv = Decision.Blocked gitReason gitDetail) ∧
        (credentialCommand (normChars inv.command) = false →
          rmDanger (normChars inv.command) = false →
          chainedCommand (normChars inv.command) = false →
          alternativeDeletion (normChars inv.command) = false →
          gitDanger (normChars inv.command) = false →
          permissionChange (normChars inv.command) = true →
          classify inv = Decision.Blocked permReason permDetail) ∧
        (credentialCommand (normChars inv.command) = false →
          rmDanger (normChars inv.command) = false →
          chainedCommand (normChars inv.command) = false →
          alternativeDeletion (normChars inv.command) = false →
          gitDanger (normChars inv.command) = false →
          permissionChange (normChars inv.command) = false →
          brewCommand (normChars inv.command) = true →
          classify inv = Decision.Blocked brewReason brewDetail) ∧
        (credentialCommand (normChars inv.command) = false →
          rmDanger (normChars inv.command) = false →
          chainedCommand (normChars inv.command) = false →
          alternativeDeletion (normChars inv.command) = false →
          gitDanger (normChars inv.command) = false →
          permissionChange (normChars inv.command) = false →
          brewCommand (normChars inv.command) = false →
          classify inv = Decision.Allowed))) := by
  constructor
  · intro hk
    constructor <;> intro h1 <;> simp [classify, hk, h1]
  · intro hk
    refine ⟨?_, ?_, ?_, ?_, ?_, ?_, ?_, ?_⟩ <;> intros <;> simp [classify, hk, *]

/-- Witness for C3 at a concrete shell invocation reaching the last
detector in the order. -/
theorem claim_C3_aggregator_order_witness :
    classify ⟨"Bash", "", "brew install x"⟩ = Decision.Blocked brewReason brewDetail :=
  ((claim_C3_aggregator_order ⟨"Bash", "", "brew install x"⟩).2
    (by decide)).2.2.2.2.2.2.1 (by decide) (by decide) (by decide) (by decide)
    (by decide) (by decide) (by decide)

/-- C4: the rm-danger detector fires on every normalized command containing
`rm -rf` or `rm -fr` as a substring (case variants such as `rm -Rf` reach
the detector lowercased by the normalizer), and rejects `rm file.txt` and
`rm -f file.txt`. -/
theorem claim_C4_rm_danger :
    (∀ n : List Char, substS "rm -rf" n = true ∨ substS "rm -fr" n = true →
      rmDanger n = true) ∧
    rmDanger (normChars "rm -Rf /tmp") = true ∧
    rmDanger (normChars "rm file.txt") = false ∧
    rmDanger (normChars "rm -f file.txt") = false := by
  refine ⟨fun n h => rmDanger_of_contained h, by decide, by decide, by decide⟩

/-- Witness for C4 at a concrete command containing `rm -rf`. -/
theorem claim_C4_rm_danger_witness : rmDanger (normChars "rm -rf /") = true :=
  claim_C4_rm_danger.1 (normChars "rm -rf /") (Or.inl (by decide))

/-- C5: the `chmod +x` allow-list carve-out is checked before every deny
pattern, so any command containing `chmod +x` is never flagged, while
`chmod 777` and `chmod -R 777` are flagged and `chmod 644`/`chmod 755`
are not. -/
theorem claim_C5_chmod_carveout :
    (∀ n : List Char, substS "chmod +x" n = true → permissionChange n = false) ∧
    permissionChange (normChars "chmod 777 file.txt") = true ∧
    permissionChange (normChars "chmod -R 777 /tmp") = true ∧
    permissionChange (normChars "chmod +x script.sh") = false ∧
    permissionChange (normChars "sudo chmod +x script.sh") = false ∧
    permissionChange (normChars "chmod 644 file.txt") = false ∧
    permissionChange (normChars "chmod 755 file.txt") = false := by
  refine ⟨fun n h => ?_, by decide, by decide, by decide, by decide, by decide, by decide⟩
  unfold permissionChange
  simp [h]

/-- Witness for C5 at a concrete command containing `chmod +x`. -/
theorem claim_C5_chmod_carveout_witness :
    permissionChange (normChars "sudo chmod +x deploy.sh") = false :=
  claim_C5_chmod_carveout.1 (normChars "sudo chmod +x deploy.sh") (by decide)

/-- C6: the file-path credential detector accepts `.env` with any suffix
except the `.sample`/`.example` templates (case-insensitively) plus the
three named credential files, checked on the path's base name. -/
theorem claim_C6_credential_file_paths :
    credentialFilePath ".env" = true ∧
    credentialFilePath ".env.local" = true ∧
    credentialFilePath "/path/to/.env" = true ∧
    credentialFilePath ".ENV" = true ∧
    credentialFilePath ".env.sample" = false ∧
    credentialFilePath ".env.example" = false ∧
    credentialFilePath "client_secret.json" = true ∧
    credentialFilePath ".credentials.json" = true ∧
    credentialFilePath "token.pickle" = true := by decide

/-- C7: the classifier is a pure function — identical invocations yield
identical decisions and exit codes; there is no hidden state. -/
theorem claim_C7_pure_function (inv1 inv2 : ToolInvocation) (h : inv1 = inv2) :
    classify inv1 = classify inv2 ∧
      exitCode (classify inv1) = exitCode (classify inv2) := by
  subst h
  exact ⟨rfl, rfl⟩

/-- Witness for C7 at a concrete repeated invocation. -/
theorem claim_C7_pure_function_witness :
    classify ⟨"Bash", "", "ls"⟩ = classify ⟨"Bash", "", "ls"⟩ ∧
      exitCode (classify ⟨"Bash", "", "ls"⟩) = exitCode (classify ⟨"Bash", "", "ls"⟩) :=
  claim_C7_pure_function ⟨"Bash", "", "ls"⟩ ⟨"Bash", "", "ls"⟩ rfl

/-- The head surviving a `dropWhile` falsifies the predicate. -/
theorem head_dropWhile (p : Char → Bool) :
    ∀ (l : List Char) (c : Char), (l.dropWhile p).head? = some c → p c = false
  | [], c, h => by simp [List.dropWhile] at h
  | a :: as, c, h => by
    by_cases hp : p a = true
    · rw [List.dropWhile_cons, if_pos hp] at h
      exact head_dropWhile p as c h
    · rw [List.dropWhile_cons, if_neg hp] at h
      simp at h
      rw [← h]
      simpa using hp

/-- A nonempty `dropWhile` keeps the last element. -/
theorem getLast_dropWhile (p : Char → Bool) :
    ∀ l : List Char, l.dropWhile p ≠ [] → (l.dropWhile p).getLast? = l.getLast?
  | [], h => absurd rfl h
  | a :: as, h => by
    rw [List.dropWhile_cons]
    by_cases hp : p a = true
    · rw [List.dropWhile_cons, if_pos hp] at h
      rw [if_pos hp, getLast_dropWhile p as h]
      cases as with
      | nil => exact absurd (by simp [List.dropWhile]) h
      | cons b bs => rw [List.getLast?_cons_cons]
    · rw [if_neg hp]

/-- Membership survives `dropWhile`. -/
theorem mem_dropWhile (p : Char → Bool) :
    ∀ (l : List Char) (c : Char), c ∈ l.dropWhile p → c ∈ l
  | [], _, h => by simp [List.dropWhile] at h
  | a :: as, c, h => by
    rw [List.dropWhile_cons] at h
    by_cases hp : p a = true
    · rw [if_pos hp] at h
      exact List.mem_cons_of_mem a (mem_dropWhile p as c h)
    · rwa [if_neg hp] at h

/-- Characters produced by the separator-collapsing pass are either the
replacement hyphen or non-separator input characters. -/
theorem mem_collapseAux :
    ∀ (b : Bool) (l : List Char) (c : Char), c ∈ collapseAux b l →
      c = '-' ∨ isSep c = false
  | _, [], _, h => by simp [collapseAux] at h
  | b, a :: as, c, h => by
    unfold collapseAux at h
    by_cases ha : isSep a = true
    · rw [if_pos ha] at h
      cases b with
      | true => exact mem_collapseAux true as c (by simpa using h)
      | false =>
        simp only [Bool.false_eq_true, if_false, List.mem_cons] at h
        rcases h with h | h
        · exact Or.inl h
        · exact mem_collapseAux true as c h
    · rw [if_neg ha] at h
      rcases List.mem_cons.mp h with h | h
      · exact Or.inr (by rw [h]; simpa using ha)
      · exact mem_collapseAux false as c h

/-- Characters of the finished slug pipeline are hyphens or non-separators. -/
theorem mem_slugChars (title : List Char) (c : Char) (h : c ∈ slugChars title) :
    c = '-' ∨ isSep c = false := by
  unfold slugChars stripHyphens at h
  have h1 := mem_dropWhile _ _ _ h
  rw [List.mem_reverse] at h1
  have h2 := mem_dropWhile _ _ _ h1
  rw [List.mem_reverse] at h2
  exact mem_collapseAux false _ c h2

/-! ## Claim C10: get_post_slug -/

/-- C10: for any (possibly absent) string title, `get_post_slug` returns a
non-empty string with no whitespace characters that neither starts nor ends
with a hyphen, and falls back to `untitled` when the title is absent or the
computed slug is empty. -/
theorem claim_C10_post_slug :
    (∀ t : Option String,
      get_post_slug t ≠ "" ∧
      (get_post_slug t).data.all (fun c => !isWs c) = true ∧
      (get_post_slug t).data.head? ≠ some '-' ∧
      (get_post_slug t).data.getLast? ≠ some '-') ∧
    get_post_slug none = "untitled" ∧
    (∀ s : String, slugChars s.data = [] → get_post_slug (some s) = "untitled") := by
  refine ⟨fun t => ?_, by decide, fun s hs => by simp [get_post_slug, hs]⟩
  unfold get_post_slug
  by_cases hL : (slugChars (t.getD "untitled").data).isEmpty = true
  · rw [if_pos hL]
    refine ⟨by decide, by decide, by decide, by decide⟩
  · rw [if_neg hL]
    have hdata : (String.mk (slugChars (t.getD "untitled").data)).data
        = slugChars (t.getD "untitled").data := rfl
    have hne : slugChars (t.getD "untitled").data ≠ [] := by
      intro hnil
      rw [hnil] at hL
      exact hL rfl
    refine ⟨?_, ?_, ?_, ?_⟩
    · intro heq
      exact hne (congrArg String.data heq)
    · rw [hdata]
      rw [List.all_eq_true]
      intro c hc
      rcases mem_slugChars _ c hc with h | h
      · rw [h]; decide
      · unfold isSep at h
        simp only [Bool.or_eq_false_iff] at h
        rw [h.2]
        rfl
    · rw [hdata]
      intro hhead
      unfold slugChars stripHyphens at hhead
      have := head_dropWhile isHyph _ '-' hhead
      simp [isHyph] at this
    · rw [hdata]
      intro hlast
      unfold slugChars stripHyphens at hlast hne
      rw [getLast_dropWhile isHyph _ hne, List.getLast?_reverse] at hlast
      have := head_dropWhile isHyph _ '-' hlast
      simp [isHyph] at this

/-- Witness for C10 at a concrete title. -/
theorem claim_C10_post_slug_witness : get_post_slug (some "Hello World") ≠ "" :=
  (claim_C10_post_slug.1 (some "Hello World")).1

/-- `takeWhile` keeps a list all of whose elements satisfy the predicate. -/
theorem takeWhile_of_all (p : Char → Bool) :
    ∀ l : List Char, l.all p = true → l.takeWhile p = l
  | [], _ => rfl
  | a :: as, h => by
    rw [List.all_cons, Bool.and_eq_true] at h
    rw [List.takeWhile_cons, if_pos h.1, takeWhile_of_all p as h.2]

/-- `dropWhile` erases a list all of whose elements satisfy the predicate. -/
theorem dropWhile_of_all (p : Char → Bool) :
    ∀ l : List Char, l.all p = true → l.dropWhile p = []
  | [], _ => rfl
  | a :: as, h => by
    rw [List.all_cons, Bool.and_eq_true] at h
    rw [List.dropWhile_cons, if_pos h.1, dropWhile_of_all p as h.2]

/-! ## Claim C9: directory-name format check vs derive_blogger_path -/

/-- C9 counterexample: the name `2025-01-02-a` followed by one newline is
accepted by the format check (Python `$` matches before a single trailing
newline), yet the derived path drops the newline from the slug, so the
result is not `/2025/01/` followed by everything after the third field. -/
theorem claim_C9_counterexample :
    validFormatCheck "2025-01-02-a\n" = true ∧
    derive_blogger_path "2025-01-02-a\n" = some "/2025/01/a.html" ∧
    derive_blogger_path "2025-01-02-a\n" ≠ some "/2025/01/a\n.html" := by decide

/-- C9 (amended): every name accepted by the format check is accepted by
`derive_blogger_path` without error, and for accepted names whose slug part
contains no newline the result is exactly `/YYYY/MM/slug.html` with the
slug being everything after the third hyphen-separated field. -/
theorem claim_C9_amended :
    (∀ s : String, validFormatCheck s = true → (derive_blogger_path s).isSome = true) ∧
    (∀ (c1 c2 c3 c4 c5 c6 c7 c8 : Char) (slug : List Char),
      pyDigit c1 = true → pyDigit c2 = true → pyDigit c3 = true → pyDigit c4 = true →
      pyDigit c5 = true → pyDigit c6 = true → pyDigit c7 = true → pyDigit c8 = true →
      slug ≠ [] → slug.all (fun c => !(c == '\n')) = true →
      validFormatCheck (String.mk
        (c1 :: c2 :: c3 :: c4 :: '-' :: c5 :: c6 :: '-' :: c7 :: c8 :: '-' :: slug)) = true ∧
      derive_blogger_path (String.mk
          (c1 :: c2 :: c3 :: c4 :: '-' :: c5 :: c6 :: '-' :: c7 :: c8 :: '-' :: slug)) =
        some (String.mk
          ('/' :: c1 :: c2 :: c3 :: c4 :: '/' :: c5 :: c6 :: '/' :: slug ++ ".html".data))) := by
  constructor
  · intro s h
    unfold validFormatCheck at h
    unfold derive_blogger_path
    cases hm : matchDatePrefix s.data with
    | none => rw [hm] at h; exact absurd h (by simp)
    | some v =>
      obtain ⟨y, m, d, rest⟩ := v
      rw [hm] at h
      simp only [Bool.and_eq_true, Bool.not_eq_true'] at h
      simp [h.1]
  · intro c1 c2 c3 c4 c5 c6 c7 c8 slug h1 h2 h3 h4 h5 h6 h7 h8 hne hall
    have hmk : (String.mk
        (c1 :: c2 :: c3 :: c4 :: '-' :: c5 :: c6 :: '-' :: c7 :: c8 :: '-' :: slug)).data =
        c1 :: c2 :: c3 :: c4 :: '-' :: c5 :: c6 :: '-' :: c7 :: c8 :: '-' :: slug := rfl
    have hmatch : matchDatePrefix
        (c1 :: c2 :: c3 :: c4 :: '-' :: c5 :: c6 :: '-' :: c7 :: c8 :: '-' :: slug) =
        some ([c1, c2, c3, c4], [c5, c6], [c7, c8], slug) := by
      unfold matchDatePrefix
      simp [h1, h2, h3, h4, h5, h6, h7, h8]
    have htake : slug.takeWhile (fun c => !(c == '\n')) = slug := takeWhile_of_all _ slug hall
    have hdrop : slug.dropWhile (fun c => !(c == '\n')) = [] := dropWhile_of_all _ slug hall
    have hE : slug.isEmpty = false := by
      cases slug with
      | nil => exact absurd rfl hne
      | cons a as => rfl
    constructor
    · unfold validFormatCheck
      rw [hmk, hmatch]
      simp [htake, hdrop, hE]
    · unfold derive_blogger_path
      rw [hmk, hmatch]
      simp [htake, hE]

/-- Witness for C9 at a concrete well-formed directory name. -/
theorem claim_C9_amended_witness :
    derive_blogger_path "2025-01-02-ab" = some "/2025/01/ab.html" :=
  (claim_C9_amended.2 '2' '0' '2' '5' '0' '1' '0' '2' ['a', 'b']
    (by decide) (by decide) (by decide) (by decide) (by decide) (by decide)
    (by decide) (by decide) (by decide) (by decide)).2

/-- `contains` agrees with membership on lists of naturals. -/
theorem contains_iff_mem (l : List Nat) (x : Nat) : l.contains x = true ↔ x ∈ l := by
  induction l with
  | nil => simp
  | cons a as ih => rw [List.contains_cons]; simp [ih, List.mem_cons]

/-- Membership in an insertion. -/
theorem mem_insertSorted (x y : Nat) :
    ∀ l : List Nat, y ∈ insertSorted x l ↔ y = x ∨ y ∈ l
  | [] => by unfold insertSorted; simp
  | a :: as => by
    unfold insertSorted
    by_cases hle : x ≤ a
    · rw [if_pos hle]
      simp [List.mem_cons]
    · rw [if_neg hle]
      simp only [List.mem_cons, mem_insertSorted x y as]
      tauto

/-- Sorting preserves membership. -/
theorem mem_sortNat (x : Nat) : ∀ l : List Nat, x ∈ sortNat l ↔ x ∈ l
  | [] => Iff.rfl
  | a :: as => by
    have h1 : sortNat (a :: as) = insertSorted a (sortNat as) := rfl
    rw [h1, mem_insertSorted, mem_sortNat x as, List.mem_cons]

/-- `DAY_MAP` only produces weekday numbers below 7. -/
theorem DAY_MAP_lt (s : String) (w : Nat) (h : DAY_MAP s = some w) : w < 7 := by
  unfold DAY_MAP at h
  split_ifs at h <;> simp_all <;> omega

/-- Every weekday produced by `mapDays` comes from some listed day name. -/
theorem mapDays_sound :
    ∀ (days : List String) (ws : List Nat), mapDays days = some ws →
      ∀ w ∈ ws, ∃ d ∈ days, DAY_MAP (pyLower d) = some w
  | [], ws, h => by
    unfold mapDays at h
    injection h with h
    subst h
    simp
  | d :: ds, ws, h => by
    unfold mapDays at h
    cases hD : DAY_MAP (pyLower d) with
    | none => rw [hD] at h; simp at h
    | some w0 =>
      cases hM : mapDays ds with
      | none => rw [hD, hM] at h; simp at h
      | some ws0 =>
        rw [hD, hM] at h
        injection h with h
        subst h
        intro w hw
        rcases List.mem_cons.mp hw with hcase | hcase
        · exact ⟨d, List.mem_cons_self d ds, by rw [hD, hcase]⟩
        · obtain ⟨d2, hd2, hm2⟩ := mapDays_sound ds ws0 hM w hcase
          exact ⟨d2, List.mem_cons_of_mem d hd2, hm2⟩

/-- `mapDays` of a nonempty list is nonempty. -/
theorem mapDays_ne_nil (days : List String) (ws : List Nat)
    (hd : days ≠ []) (h : mapDays days = some ws) : ws ≠ [] := by
  cases days with
  | nil => exact absurd rfl hd
  | cons d ds =>
    unfold mapDays at h
    cases hD : DAY_MAP (pyLower d) with
    | none => rw [hD] at h; simp at h
    | some w0 =>
      cases hM : mapDays ds with
      | none => rw [hD, hM] at h; simp at h
      | some ws0 =>
        rw [hD, hM] at h
        injection h with h
        subst h
        simp

/-- The search loop succeeds within its fuel as soon as some candidate
offset hits a target weekday, returning the first hit with the time fields
untouched. -/
theorem findDate_spec (targets : List Nat) :
    ∀ (fuel : Nat) (d : PyDateTime) (k : Nat), k < fuel →
      targets.contains (weekdayOf (d.day + k)) = true →
      d.day + k ≤ maxOrdinal →
      ∃ j, j ≤ k ∧
        findDate targets fuel d = some ⟨d.day + j, d.hour, d.minute, d.second, d.micro⟩ ∧
        targets.contains (weekdayOf (d.day + j)) = true := by
  intro fuel
  induction fuel with
  | zero => intro d k hk _ _; exact absurd hk (Nat.not_lt_zero k)
  | succ f ih =>
    intro d k hk hmem hbound
    unfold findDate
    by_cases hw : targets.contains d.weekday = true
    · refine ⟨0, Nat.zero_le k, ?_, ?_⟩
      · rw [if_pos hw]
        congr 1
      · simpa [PyDateTime.weekday] using hw
    · rw [if_neg hw]
      cases k with
      | zero =>
        exact absurd (by simpa [PyDateTime.weekday] using hmem) hw
      | succ k0 =>
        have hadd : addDays d 1 =
            some ⟨d.day + 1, d.hour, d.minute, d.second, d.micro⟩ := by
          unfold addDays
          rw [if_pos (by omega)]
        rw [hadd]
        have hmem2 : targets.contains
            (weekdayOf ((⟨d.day + 1, d.hour, d.minute, d.second, d.micro⟩ :
              PyDateTime).day + k0)) = true := by
          simpa [show d.day + 1 + k0 = d.day + (k0 + 1) by omega] using hmem
        obtain ⟨j, hj, heq, hmemj⟩ :=
          ih ⟨d.day + 1, d.hour, d.minute, d.second, d.micro⟩ k0 (by omega) hmem2
            (by show d.day + 1 + k0 ≤ maxOrdinal; omega)
        refine ⟨j + 1, by omega, ?_, ?_⟩
        · show findDate targets f ⟨d.day + 1, d.hour, d.minute, d.second, d.micro⟩ =
            some ⟨d.day + (j + 1), d.hour, d.minute, d.second, d.micro⟩
          rw [heq]
          have harith : d.day + 1 + j = d.day + (j + 1) := by omega
          exact congrArg some (by
            show (⟨d.day + 1 + j, d.hour, d.minute, d.second, d.micro⟩ : PyDateTime) = _
            rw [harith])
        · simpa [show d.day + 1 + j = d.day + (j + 1) by omega] using hmemj

/-! ## Claim C8: get_next_publish_date -/

/-- C8 counterexample: at the largest representable date (a perfectly valid
`datetime`, with valid day names and a well-formed time string) the very
first `after_date + timedelta(days=1)` overflows, so the function raises
`OverflowError` instead of returning normally. -/
theorem claim_C8_counterexample :
    mapDays ["monday"] = some [0] ∧
    parseTime "10:00:00".data = some (10, 0, 0) ∧
    get_next_publish_date ⟨maxOrdinal, 23, 59, 59, 999999⟩ ["monday"] "10:00:00" = none := by
  decide

/-- C8 (amended): whenever the publish days are valid day names, the list is
non-empty, the time string parses to a valid hour/minute/second, and
`after_date` sits at least 7 days below the maximum representable date,
`get_next_publish_date` returns normally (the final `raise ValueError` is
unreachable because seven consecutive days cover every weekday), and the
result is strictly after `after_date`, falls on a requested weekday, and
carries the requested hour, minute and second. -/
theorem claim_C8_amended (after : PyDateTime) (publish_days : List String)
    (publish_time : String) (tws : List Nat) (h m s : Nat)
    (hdays : mapDays publish_days = some tws)
    (hne : publish_days ≠ [])
    (htime : parseTime publish_time.data = some (h, m, s))
    (hh : h ≤ 23) (hm : m ≤ 59) (hs : s ≤ 59)
    (hroom : after.day + 7 ≤ maxOrdinal) :
    ∃ r : PyDateTime,
      get_next_publish_date after publish_days publish_time = some r ∧
      dtLt after r ∧
      (∃ dname ∈ publish_days, DAY_MAP (pyLower dname) = some r.weekday) ∧
      r.hour = h ∧ r.minute = m ∧ r.second = s := by
  have hadd : addDays after 1 =
      some ⟨after.day + 1, after.hour, after.minute, after.second, after.micro⟩ := by
    unfold addDays
    rw [if_pos (by omega)]
  have hrep : replaceTime
      ⟨after.day + 1, after.hour, after.minute, after.second, after.micro⟩ h m s =
      some ⟨after.day + 1, h, m, s, 0⟩ := by
    unfold replaceTime
    rw [if_pos ⟨hh, hm, hs⟩]
  have hget : get_next_publish_date after publish_days publish_time =
      findDate (sortNat tws) 7 ⟨after.day + 1, h, m, s, 0⟩ := by
    simp only [get_next_publish_date, htime, hdays, hadd, hrep]
  have hwsne : tws ≠ [] := mapDays_ne_nil publish_days tws hne hdays
  obtain ⟨t, htmem⟩ : ∃ t, t ∈ tws := by
    cases tws with
    | nil => exact absurd rfl hwsne
    | cons a l => exact ⟨a, List.mem_cons_self a l⟩
  obtain ⟨dname, hdmem, hdmap⟩ := mapDays_sound publish_days tws hdays t htmem
  have ht7 : t < 7 := DAY_MAP_lt _ _ hdmap
  have hk7 : (t + 7 - weekdayOf (after.day + 1)) % 7 < 7 := Nat.mod_lt _ (by omega)
  have hwk : weekdayOf (after.day + 1 + (t + 7 - weekdayOf (after.day + 1)) % 7) = t := by
    unfold weekdayOf
    omega
  have hcont : (sortNat tws).contains
      (weekdayOf (after.day + 1 + (t + 7 - weekdayOf (after.day + 1)) % 7)) = true := by
    rw [hwk]
    exact (contains_iff_mem _ _).mpr ((mem_sortNat t tws).mpr htmem)
  obtain ⟨j, hj, heq, hmemj⟩ := findDate_spec (sortNat tws) 7 ⟨after.day + 1, h, m, s, 0⟩
    ((t + 7 - weekdayOf (after.day + 1)) % 7) hk7 hcont
    (by show after.day + 1 + (t + 7 - weekdayOf (after.day + 1)) % 7 ≤ maxOrdinal; omega)
  refine ⟨⟨after.day + 1 + j, h, m, s, 0⟩, ?_, ?_, ?_, rfl, rfl, rfl⟩
  · rw [hget]
    exact heq
  · exact Or.inl (by show after.day < after.day + 1 + j; omega)
  · obtain ⟨d2, hd2, hm2⟩ := mapDays_sound publish_days tws hdays _
      ((mem_sortNat _ tws).mp ((contains_iff_mem _ _).mp hmemj))
    exact ⟨d2, hd2, hm2⟩

/-- Witness for C8 at a concrete valid configuration. -/
theorem claim_C8_amended_witness :
    ∃ r : PyDateTime,
      get_next_publish_date ⟨738000, 0, 0, 0, 0⟩ ["monday"] "10:00:00" = some r ∧
      dtLt ⟨738000, 0, 0, 0, 0⟩ r ∧
      (∃ dname ∈ ["monday"], DAY_MAP (pyLower dname) = some r.weekday) ∧
      r.hour = 10 ∧ r.minute = 0 ∧ r.second = 0 :=
  claim_C8_amended ⟨738000, 0, 0, 0, 0⟩ ["monday"] "10:00:00" [0] 10 0 0
    (by decide) (by decide) (by decide) (by decide) (by decide) (by decide) (by decide)
